import Mathlib

/-!
Shallow embedding of the suggestion pipeline of the Obsidian
"enhanced link intellisense" plugin (src/EnhancedLinkSuggester.ts and
src/utils.ts), together with theorems settling the frozen claims about it.

Conventions of the embedding:
* JS strings are Lean `String`s; `toLowerCase` is modelled character-wise.
* JS numbers used as scores are modelled as `Int` (only comparisons and
  sign of differences matter to the code under study).
* The `fuzzy` npm library's `filter` (used by the source for title, alias
  and heading matching) is modelled by its documented behaviour: a pattern
  matches a string when the pattern's characters occur in the string in
  order (case-sensitive subsequence test); the empty pattern matches
  everything.  The source never reads the fuzzy score (all local scores
  are the fixed constants 1000/500/100), so only the boolean is modelled.
* `getFirstLineWithoutFrontmatter` performs vault IO; it is modelled by a
  per-file `firstLine` field carrying its result.
* The awaited outcome of `omnisearchApi.search` is an `Except Unit` value
  supplied in the environment (`Except.error` = the promise rejected);
  an absent Omnisearch API is `none`.
* JS `Map` (insertion-ordered, `set` on an existing key keeps its slot)
  is an association list with in-place replacement.
* `Array.prototype.sort` (stable per ES2019) is `List.mergeSort`.
-/

/-- The `type` field of `MySuggestion` in EnhancedLinkSuggester.ts:
`"note" | "alias" | "heading" | "block" | "content"`.  The constructor
`aliasKind` stands for the source's `"alias"` tag. -/
inductive SugType where
  | note
  | aliasKind
  | heading
  | block
  | content
deriving DecidableEq, Repr

/-- The `MySuggestion` interface of EnhancedLinkSuggester.ts.  The unused
`matches` field (always `[]` or absent) is omitted; `content` is the
optional preview field. -/
structure MySuggestion where
  type : SugType
  displayText : String
  insertText : String
  filePath : String
  score : Int
  isRecent : Bool
  content : Option String
deriving DecidableEq, Repr

/-- The slice of Obsidian's per-file metadata cache the suggester reads:
`frontmatter.aliases` and the texts of `headings`.  A missing frontmatter
or missing lists behave exactly like empty lists in the source loops. -/
structure FileCache where
  aliases : List String
  headings : List String
deriving DecidableEq, Repr

/-- A vault file as the suggester sees it: `path`, `basename`, the result
of `getFirstLineWithoutFrontmatter` (`firstLine`), and the metadata cache
(`none` models `getFileCache` returning `null`). -/
structure MDFile where
  path : String
  basename : String
  firstLine : String
  cache : Option FileCache
deriving DecidableEq, Repr

/-- One hit returned by `omnisearchApi.search`. -/
structure OmniResult where
  basename : String
  path : String
  score : Int
deriving DecidableEq, Repr

/-- The environment of one `getSuggestions` call: the context query as
typed, `context.file?.path`, the recent-files working set, the vault
(for `getFileByPath`), and the Omnisearch API with the awaited outcome
of its `search` call (`none` = API absent). -/
structure Env where
  contextQuery : String
  currentFile : Option String
  recentFiles : List MDFile
  vault : List MDFile
  omni : Option (Except Unit (List OmniResult))

/-- Character-wise model of JS `String.prototype.toLowerCase`. -/
def toLowerStr (s : String) : String :=
  String.mk (s.toList.map Char.toLower)

/-- Model of the fuzzy library's match test: every pattern character
occurs in the text in order. -/
def fuzzyMatches : List Char → List Char → Bool
  | [], _ => true
  | _ :: _, [] => false
  | p :: ps, c :: cs =>
    if p = c then fuzzyMatches ps cs else fuzzyMatches (p :: ps) cs

/-- The lowercased query (`const query = context.query.toLowerCase()`). -/
def queryOf (e : Env) : String :=
  toLowerStr e.contextQuery

/-- The title-match candidate pushed for a recent file
(type "note", score 1000, preview = first line). -/
def noteSug (f : MDFile) : MySuggestion :=
  { type := SugType.note
    displayText := f.basename
    insertText := f.basename
    filePath := f.path
    score := 1000
    isRecent := true
    content := some f.firstLine }

/-- The alias-match candidate pushed for a recent file
(type "alias", `insertText = basename|alias`, score 500). -/
def aliasSug (f : MDFile) (a : String) : MySuggestion :=
  { type := SugType.aliasKind
    displayText := a
    insertText := f.basename ++ "|" ++ a
    filePath := f.path
    score := 500
    isRecent := true
    content := some f.firstLine }

/-- The heading-match candidate pushed for a recent file
(type "heading", `insertText = basename#heading`, score 100, no preview). -/
def headingSug (f : MDFile) (h : String) : MySuggestion :=
  { type := SugType.heading
    displayText := h
    insertText := f.basename ++ "#" ++ h
    filePath := f.path
    score := 100
    isRecent := true
    content := none }

/-- Stage-1 candidates contributed by one recent file, in push order:
title match first (against the lowercased basename), then — only for a
non-empty query — alias matches (against the raw alias strings) and
heading matches (against the lowercased heading texts).  A file whose
metadata cache is `null` is skipped (`if (!cache) continue`). -/
def fileMatches (q : String) (f : MDFile) : List MySuggestion :=
  match f.cache with
  | none => []
  | some c =>
    (if fuzzyMatches q.toList (toLowerStr f.basename).toList
      then [noteSug f] else [])
    ++ (if q ≠ "" then
          (c.aliases.filter (fun a => fuzzyMatches q.toList a.toList)).map
            (aliasSug f)
        else [])
    ++ (if q ≠ "" then
          (c.headings.filter
              (fun h => fuzzyMatches q.toList (toLowerStr h).toList)).map
            (headingSug f)
        else [])

/-- The `recentMatches` array built by stage 1 of `getSuggestions`,
iterating the recent files in recency order. -/
def recentMatches (e : Env) : List MySuggestion :=
  (e.recentFiles.map (fileMatches (queryOf e))).flatten

/-- The `uniqueSuggestions` map: a JS `Map<string, MySuggestion>` as an
insertion-ordered association list. -/
abbrev SugMap : Type := List (String × MySuggestion)

/-- `Map.get`: the value at a key, if present. -/
def mapFind : SugMap → String → Option MySuggestion
  | [], _ => none
  | (k', v) :: rest, k => if k' = k then some v else mapFind rest k

/-- `Map.set`: replace the value at an existing key in place, otherwise
append the new entry (JS `Map` keeps the original insertion slot). -/
def mapSet : SugMap → String → MySuggestion → SugMap
  | [], k, v => [(k, v)]
  | (k', v') :: rest, k, v =>
    if k' = k then (k, v) :: rest else (k', v') :: mapSet rest k v

/-- The collision rule used at both merge sites of `getSuggestions`
(stage 1: `!has || existing.score < sug.score`; stage 2:
`!existing || sug.score > existing.score`): insert, overwriting an
existing entry only when the new score is strictly higher. -/
def insertSug (m : SugMap) (sug : MySuggestion) : SugMap :=
  match mapFind m sug.insertText with
  | none => mapSet m sug.insertText sug
  | some ex =>
    if ex.score < sug.score then mapSet m sug.insertText sug else m

/-- The map after folding in all stage-1 (local) candidates. -/
def localMap (e : Env) : SugMap :=
  (recentMatches e).foldl insertSug []

/-- `vault.getFileByPath` (null when absent). -/
def vaultFind (vault : List MDFile) (p : String) : Option MDFile :=
  vault.find? (fun f => f.path == p)

/-- The content-match candidate built from one Omnisearch hit:
`displayText`/`insertText` = the hit's basename, the engine's own score,
`isRecent` = the hit's path occurs in the recent set, preview = first
line of the resolved file (empty when the path does not resolve). -/
def mkOmniSug (recent vault : List MDFile) (r : OmniResult) : MySuggestion :=
  { type := SugType.content
    displayText := r.basename
    insertText := r.basename
    filePath := r.path
    score := r.score
    isRecent := recent.any (fun rf => rf.path == r.path)
    content := some (match vaultFind vault r.path with
      | some f => f.firstLine
      | none => "") }

/-- The map after stage 2: when the (lowercased) query is non-empty and
the Omnisearch API is present, fold the successful search results in
with the same collision rule; a rejected search is caught and
contributes nothing (the `catch` block only logs). -/
def mergedMap (e : Env) : SugMap :=
  if (queryOf e).length > 0 then
    match e.omni with
    | some (Except.ok rs) =>
      rs.foldl (fun m r => insertSug m (mkOmniSug e.recentFiles e.vault r))
        (localMap e)
    | some (Except.error _) => localMap e
    | none => localMap e
  else localMap e

/-- The arguments with which `omnisearchApi.search` is invoked during one
`getSuggestions` call (the call happens exactly when the lowercased query
is non-empty and the API object is present, and passes that lowercased
query). -/
def omniCalls (e : Env) : List String :=
  if (queryOf e).length > 0 && e.omni.isSome then [queryOf e] else []

/-- The self-link filter `sug.filePath !== currentFilePath`
(`currentFilePath` is `undefined` when no file is open, in which case
every candidate is kept). -/
def keepSug (current : Option String) (s : MySuggestion) : Bool :=
  decide (current ≠ some s.filePath)

/-- `Array.from(uniqueSuggestions.values())` followed by the self-link
filter: the merged candidates, in map insertion order. -/
def filteredSuggestions (e : Env) : List MySuggestion :=
  ((mergedMap e).map (fun p => p.2)).filter (keepSug e.currentFile)

/-- The final sort comparator as a boolean "a may precede b" relation:
`cmp(a,b) = -1` when a is recent and b is not, `1` in the mirrored case,
else `b.score - a.score`; `jsLe a b` is `cmp(a,b) ≤ 0`. -/
def jsLe (a b : MySuggestion) : Bool :=
  if a.isRecent && !b.isRecent then true
  else if !a.isRecent && b.isRecent then false
  else decide (b.score ≤ a.score)

/-- The full `getSuggestions` pipeline: stage 1, stage 2, self-link
filtering and the final stable sort. -/
def getSuggestions (e : Env) : List MySuggestion :=
  (filteredSuggestions e).mergeSort jsLe

/-- What the local engine alone produces: the pipeline with stage 2
skipped entirely (local map, self-link filter, final sort). -/
def localOnlySuggestions (e : Env) : List MySuggestion :=
  (((localMap e).map (fun p => p.2)).filter
      (keepSug e.currentFile)).mergeSort jsLe

/-! ### Trigger detection (`onTrigger`) -/

/-- The `EditorSuggestTriggerInfo` record returned by `onTrigger`. -/
structure TriggerInfo where
  startLine : Nat
  startCh : Nat
  endLine : Nat
  endCh : Nat
  query : String
deriving DecidableEq, Repr

/-- Semantics of `text.match(/\[([^\]]*)$/)` on a character list: the
leftmost index `i` holding `[` with no `]` anywhere after it (the
regex matches at `i` exactly when position `i` is `[` and every later
character is not `]`), returning that index and the capture (everything
after the bracket). -/
def findOpenMatch : List Char → Nat → Option (Nat × List Char)
  | [], _ => none
  | c :: rest, i =>
    if c = '[' && !(rest.contains ']') then some (i, rest)
    else findOpenMatch rest (i + 1)

/-- `onTrigger` of EnhancedLinkSuggester.ts: run the single-bracket regex
`/\[([^\]]*)$/` against the line text before the cursor; on a match,
return a span from the match index to one column past the cursor, with
the capture as query. -/
def onTrigger (lineText : String) (cursorLine cursorCh : Nat) :
    Option TriggerInfo :=
  match findOpenMatch (lineText.toList.take cursorCh) 0 with
  | some (i, q) =>
    some { startLine := cursorLine
           startCh := i
           endLine := cursorLine
           endCh := cursorCh + 1
           query := String.mk q }
  | none => none

/-! ### The `debounced` wrapper (src/utils.ts)

Event model: `call pid args` is one invocation of the wrapper, creating
promise `pid` (promises are numbered by creation, so pids are distinct
across calls); it overwrites the shared `currentResolve`/`currentReject`
pair with promise `pid`'s, clears any pending timer and arms a fresh one
capturing `args`.  `fire` is the expiry of the currently armed timer
running its callback to completion: it nulls the timer handle, invokes
`func` on the captured arguments and settles whichever promise the
shared settler pair now designates with the outcome, then nulls the
pair.  A cleared timer never produces a `fire` event. -/

inductive DebEvent (A : Type) where
  | call (pid : Nat) (args : A)
  | fire

/-- The wrapper's closure state plus the observable history: `timeout`
is the armed timer with its captured arguments, `cur` the promise the
shared settler pair currently designates, `invocations` the arguments of
the `func` invocations so far, `settled` the promises settled so far
with their outcomes. -/
structure DebState (A E R : Type) where
  timeout : Option A
  cur : Option Nat
  invocations : List A
  settled : List (Nat × Except E R)

/-- The initial closure state (`timeout` and the settler pair null). -/
def debInit {A E R : Type} : DebState A E R :=
  { timeout := none, cur := none, invocations := [], settled := [] }

/-- One event of the debounced wrapper, for an underlying function
`func` whose outcome is `Except.error` when it throws. -/
def debStep {A E R : Type} (func : A → Except E R)
    (s : DebState A E R) : DebEvent A → DebState A E R
  | DebEvent.call pid args => { s with timeout := some args, cur := some pid }
  | DebEvent.fire =>
    match s.timeout with
    | none => s
    | some args =>
      { timeout := none
        cur := none
        invocations := s.invocations ++ [args]
        settled := s.settled ++ (match s.cur with
          | some pid => [(pid, func args)]
          | none => []) }

/-- Run a sequence of events from a state. -/
def debRun {A E R : Type} (func : A → Except E R)
    (s : DebState A E R) (evs : List (DebEvent A)) : DebState A E R :=
  evs.foldl (debStep func) s

/-! ### Auxiliary predicate and concrete environments used by the claims -/

/-- Invariant of the `uniqueSuggestions` map: keys are distinct and every
entry's value has the entry's key as its `insertText`. -/
def MapInv (m : SugMap) : Prop :=
  (m.map (fun p => p.1)).Nodup ∧ ∀ p ∈ m, p.2.insertText = p.1

/-- A recent file titled "a" with empty metadata lists. -/
def c1File : MDFile :=
  { path := "A.md", basename := "a", firstLine := ""
    cache := some { aliases := [], headings := [] } }

/-- Query "a" matches `c1File`'s title locally (note candidate, score
1000, key "a"); Omnisearch returns a hit for a different file with the
same basename and score 2000, colliding on key "a". -/
def c1Env : Env :=
  { contextQuery := "a"
    currentFile := none
    recentFiles := [c1File]
    vault := []
    omni := some (Except.ok [{ basename := "a", path := "B.md", score := 2000 }]) }

/-- A query typed with an uppercase letter, with the Omnisearch API
present. -/
def c3Env : Env :=
  { contextQuery := "A"
    currentFile := none
    recentFiles := []
    vault := []
    omni := some (Except.ok []) }

/-- Recent file resolving to the currently edited document. -/
def c5FileA : MDFile :=
  { path := "A.md", basename := "a", firstLine := ""
    cache := some { aliases := [], headings := [] } }

/-- A second recent file, not the currently edited document. -/
def c5FileB : MDFile :=
  { path := "B.md", basename := "b", firstLine := ""
    cache := some { aliases := [], headings := [] } }

/-- Empty query with the currently edited document among the recent
files. -/
def c5Env : Env :=
  { contextQuery := ""
    currentFile := some "A.md"
    recentFiles := [c5FileA, c5FileB]
    vault := []
    omni := none }

/-- Empty query over a working set holding one document whose metadata
cache is `null`. -/
def c8Env : Env :=
  { contextQuery := ""
    currentFile := none
    recentFiles := [{ path := "N.md", basename := "n", firstLine := "", cache := none }]
    vault := []
    omni := none }

/-- Empty query over a working set of two documents, both with parsed
metadata. -/
def c8wEnv : Env :=
  { contextQuery := ""
    currentFile := none
    recentFiles := [c5FileA, c5FileB]
    vault := []
    omni := some (Except.ok []) }

/-- The trigger returned on line "[a" with the cursor at column 2. -/
def c9Trig : TriggerInfo :=
  { startLine := 0, startCh := 0, endLine := 0, endCh := 3, query := "a" }

/-- A concrete underlying function for the debounce witness. -/
def c10Func : Nat → Except Unit Nat := fun a => Except.ok a

/-- The class of candidates tied on both sort keys (same recency flag,
same score): within such a class the comparator returns 0 and a stable
sort must preserve the incoming order. -/
def tieClass (r : Bool) (s : Int) (x : MySuggestion) : Bool :=
  x.isRecent == r && x.score == s

/-! ### Association-list (JS `Map`) lemmas -/

theorem mapFind_mapSet_self (m : SugMap) (k : String) (v : MySuggestion) :
    mapFind (mapSet m k v) k = some v := by
  induction m with
  | nil => simp [mapSet, mapFind]
  | cons p rest ih =>
    obtain ⟨k', v'⟩ := p
    by_cases h : k' = k
    · simp [mapSet, h, mapFind]
    · simp [mapSet, h, mapFind, ih]

theorem mapFind_mapSet_ne (m : SugMap) (k k' : String) (v : MySuggestion)
    (h : k ≠ k') : mapFind (mapSet m k v) k' = mapFind m k' := by
  induction m with
  | nil => simp [mapSet, mapFind, h]
  | cons p rest ih =>
    obtain ⟨k0, v0⟩ := p
    by_cases h0 : k0 = k
    · simp [mapSet, h0, mapFind, h]
    · simp [mapSet, h0, mapFind, ih]

theorem mem_mapSet (m : SugMap) (k : String) (v : MySuggestion) :
    ∀ p ∈ mapSet m k v, p = (k, v) ∨ p ∈ m := by
  induction m with
  | nil => simp [mapSet]
  | cons q rest ih =>
    obtain ⟨k0, v0⟩ := q
    intro p hp
    by_cases h0 : k0 = k
    · simp only [mapSet, if_pos h0] at hp
      rcases List.mem_cons.mp hp with h | h
      · exact Or.inl h
      · exact Or.inr (List.mem_cons_of_mem _ h)
    · simp only [mapSet, if_neg h0] at hp
      rcases List.mem_cons.mp hp with h | h
      · exact Or.inr (by simp [h])
      · rcases ih p h with h' | h'
        · exact Or.inl h'
        · exact Or.inr (List.mem_cons_of_mem _ h')

theorem mapSet_fst_of_found (m : SugMap) (k : String) (v w : MySuggestion) :
    mapFind m k = some w →
    (mapSet m k v).map (fun p => p.1) = m.map (fun p => p.1) := by
  induction m with
  | nil => intro h; simp [mapFind] at h
  | cons q rest ih =>
    obtain ⟨k0, v0⟩ := q
    intro h
    by_cases h0 : k0 = k
    · simp [mapSet, h0]
    · simp only [mapFind, if_neg h0] at h
      simp [mapSet, h0, ih h]

theorem mapSet_fst_of_not_found (m : SugMap) (k : String) (v : MySuggestion) :
    mapFind m k = none →
    (mapSet m k v).map (fun p => p.1) = m.map (fun p => p.1) ++ [k] := by
  induction m with
  | nil => intro h; simp [mapSet]
  | cons q rest ih =>
    obtain ⟨k0, v0⟩ := q
    intro h
    by_cases h0 : k0 = k
    · simp [mapFind, h0] at h
    · simp only [mapFind, if_neg h0] at h
      simp [mapSet, h0, ih h]

theorem mapFind_eq_none_iff (m : SugMap) (k : String) :
    mapFind m k = none ↔ k ∉ m.map (fun p => p.1) := by
  induction m with
  | nil => simp [mapFind]
  | cons q rest ih =>
    obtain ⟨k0, v0⟩ := q
    by_cases h0 : k0 = k
    · simp [mapFind, h0]
    · simp [mapFind, h0, ih, Ne.symm h0]

/-! ### The merge collision rule -/

theorem insertSug_preserves_bound (m : SugMap) (sug : MySuggestion)
    (k : String) (v : MySuggestion) (h : mapFind m k = some v) :
    ∃ v', mapFind (insertSug m sug) k = some v' ∧
      (v' = v ∨ (v' = sug ∧ v.score < v'.score)) := by
  by_cases hk : sug.insertText = k
  · by_cases hs : v.score < sug.score
    · refine ⟨sug, ?_, Or.inr ⟨rfl, hs⟩⟩
      simp only [insertSug, hk, h, if_pos hs]
      exact mapFind_mapSet_self m k sug
    · refine ⟨v, ?_, Or.inl rfl⟩
      simp only [insertSug, hk, h, if_neg hs]
  · cases hm : mapFind m sug.insertText with
    | none =>
      refine ⟨v, ?_, Or.inl rfl⟩
      simp only [insertSug, hm]
      rw [mapFind_mapSet_ne m _ _ _ hk]
      exact h
    | some ex =>
      by_cases hs : ex.score < sug.score
      · refine ⟨v, ?_, Or.inl rfl⟩
        simp only [insertSug, hm, if_pos hs]
        rw [mapFind_mapSet_ne m _ _ _ hk]
        exact h
      · refine ⟨v, ?_, Or.inl rfl⟩
        simp only [insertSug, hm, if_neg hs]
        exact h

theorem omniFold_preserves_bound (recent vault : List MDFile) :
    ∀ (rs : List OmniResult) (m : SugMap) (k : String) (v : MySuggestion),
      mapFind m k = some v →
      ∃ v', mapFind
          (rs.foldl (fun acc r => insertSug acc (mkOmniSug recent vault r)) m)
          k = some v' ∧
        (v' = v ∨ (v'.type = SugType.content ∧ v.score < v'.score)) := by
  intro rs
  induction rs with
  | nil => intro m k v h; exact ⟨v, h, Or.inl rfl⟩
  | cons r rs ih =>
    intro m k v h
    obtain ⟨v1, h1, hd1⟩ :=
      insertSug_preserves_bound m (mkOmniSug recent vault r) k v h
    obtain ⟨v', h', hd'⟩ := ih (insertSug m (mkOmniSug recent vault r)) k v1 h1
    refine ⟨v', by simpa using h', ?_⟩
    rcases hd' with hv | ⟨ht, hs⟩
    · subst hv
      rcases hd1 with hv1 | ⟨hv1, hs1⟩
      · exact Or.inl hv1
      · exact Or.inr ⟨by rw [hv1]; rfl, hs1⟩
    · rcases hd1 with hv1 | ⟨hv1, hs1⟩
      · exact Or.inr ⟨ht, by rw [← hv1]; exact hs⟩
      · exact Or.inr ⟨ht, lt_trans hs1 hs⟩

/-- C1 — corrected.  In `src/EnhancedLinkSuggester.ts` the stage-2 merge
applies the same uniform collision rule as stage 1: an external
content-match candidate displaces an already-inserted local candidate —
title-match and alias-match candidates included — exactly when the
content-match's score is strictly higher; the local candidate is kept
only when it is not.  Formally: every key bound in the local map is
still bound after the merge, either to the same local candidate or to a
content-match of strictly higher score. -/
theorem c1_merge_collision_rule (e : Env) (k : String) (v : MySuggestion)
    (h : mapFind (localMap e) k = some v) :
    ∃ v', mapFind (mergedMap e) k = some v' ∧
      (v' = v ∨ (v'.type = SugType.content ∧ v.score < v'.score)) := by
  unfold mergedMap
  by_cases hq : (queryOf e).length > 0
  · rw [if_pos hq]
    rcases ho : e.omni with _ | oc
    · exact ⟨v, h, Or.inl rfl⟩
    · rcases oc with oe | rs
      · exact ⟨v, h, Or.inl rfl⟩
      · exact omniFold_preserves_bound e.recentFiles e.vault rs (localMap e) k v h
  · rw [if_neg hq]
    exact ⟨v, h, Or.inl rfl⟩

/-- C1 — counterexample to the claim as stated: with query "a", the
local title-match candidate for `c1File` (key "a", score 1000) is
displaced in the merged map by the external content-match hit of score
2000 sharing the key, so a title-match IS displaced by a content-match
of higher score. -/
theorem c1_title_displaced_by_content :
    mapFind (localMap c1Env) "a" = some (noteSug c1File) ∧
    (mapFind (mergedMap c1Env) "a").map (fun s => s.type)
      = some SugType.content ∧
    (mapFind (mergedMap c1Env) "a").map (fun s => s.score) = some 2000 := by
  decide

/-- C1 — witness for `c1_merge_collision_rule` at the concrete
environment `c1Env` and key "a". -/
theorem c1_merge_collision_rule_witness :
    ∃ v', mapFind (mergedMap c1Env) "a" = some v' ∧
      (v' = noteSug c1File ∨
        (v'.type = SugType.content ∧ (noteSug c1File).score < v'.score)) :=
  c1_merge_collision_rule c1Env "a" (noteSug c1File) (by decide)

/-! ### Trigger detection claims -/

/-- C2 — code_bug evidence.  On the line "Hello [[" with the cursor at
column 8 (the repository's own test input, whose expectation is a
trigger with query ""), `onTrigger`'s single-bracket regex
`/\[([^\]]*)$/` matches at index 6 — the FIRST of the two brackets —
and returns query "[": the second bracket of the marker is swallowed
into the query instead of the marker being the two-character "[[". -/
theorem c2_single_bracket_trigger :
    onTrigger "Hello [[" 0 8 =
      some { startLine := 0, startCh := 6, endLine := 0, endCh := 9,
             query := "[" } := by
  decide

/-- C9 — confirmed.  Whenever `onTrigger` fires, the returned span ends
exactly one column past the raw cursor offset and both span endpoints
stay on the cursor's line. -/
theorem c9_trigger_end_past_cursor (lineText : String)
    (cursorLine cursorCh : Nat) (t : TriggerInfo)
    (h : onTrigger lineText cursorLine cursorCh = some t) :
    t.endCh = cursorCh + 1 ∧ t.endLine = cursorLine ∧
      t.startLine = cursorLine := by
  rcases hm : findOpenMatch (lineText.toList.take cursorCh) 0 with _ | ⟨i, q⟩
  · simp only [onTrigger, hm] at h
    exact Option.noConfusion h
  · simp only [onTrigger, hm, Option.some.injEq] at h
    subst h
    exact ⟨rfl, rfl, rfl⟩

/-- C9 — witness at the line "[a" with the cursor at column 2. -/
theorem c9_trigger_end_past_cursor_witness :
    c9Trig.endCh = 2 + 1 ∧ c9Trig.endLine = 0 ∧ c9Trig.startLine = 0 :=
  c9_trigger_end_past_cursor "[a" 0 2 c9Trig (by decide)

/-! ### The argument passed to the external search engine -/

theorem toLowerStr_length (s : String) : (toLowerStr s).length = s.length := by
  cases s with
  | mk data => simp [toLowerStr, String.length, String.toList]

theorem length_pos_of_ne_empty (s : String) (h : s ≠ "") : 0 < s.length := by
  cases s with
  | mk data =>
    cases data with
    | nil => exact absurd rfl h
    | cons c cs => simp [String.length]

/-- C3 — counterexample to the claim as stated: typing the query "A"
(with the Omnisearch API present) invokes `search` with "a", not with
the raw query as typed — line 162 lowercases `context.query` before
line 246 passes it to `omnisearchApi.search`. -/
theorem c3_search_arg_lowercased :
    omniCalls c3Env = ["a"] ∧ c3Env.contextQuery = "A" ∧
      omniCalls c3Env ≠ [c3Env.contextQuery] := by
  decide

/-- C3 — corrected.  For every non-empty query as typed (with the
external API present), `search` is invoked exactly once, with the
LOWERCASE-FOLDED query string rather than the raw one. -/
theorem c3_search_called_with_lowercase (e : Env)
    (h1 : e.contextQuery ≠ "") (h2 : e.omni.isSome = true) :
    omniCalls e = [toLowerStr e.contextQuery] := by
  have hl : 0 < (toLowerStr e.contextQuery).length := by
    rw [toLowerStr_length]
    exact length_pos_of_ne_empty _ h1
  simp [omniCalls, queryOf, h2, hl]

/-- C3 — witness for `c3_search_called_with_lowercase` at `c3Env`. -/
theorem c3_search_called_with_lowercase_witness :
    omniCalls c3Env = [toLowerStr c3Env.contextQuery] :=
  c3_search_called_with_lowercase c3Env (by decide) (by decide)

/-! ### Uniqueness of insertion keys -/

theorem mapInv_nil : MapInv [] :=
  ⟨List.nodup_nil, by simp⟩

theorem insertSug_mapInv (m : SugMap) (sug : MySuggestion) (h : MapInv m) :
    MapInv (insertSug m sug) := by
  obtain ⟨hnd, hkeys⟩ := h
  cases hm : mapFind m sug.insertText with
  | none =>
    have hk : sug.insertText ∉ m.map (fun p => p.1) :=
      (mapFind_eq_none_iff m _).mp hm
    simp only [insertSug, hm]
    constructor
    · rw [mapSet_fst_of_not_found m _ sug hm]
      simp [List.nodup_append, hnd, hk]
    · intro p hp
      rcases mem_mapSet m _ _ p hp with h | h
      · rw [h]
      · exact hkeys p h
  | some ex =>
    by_cases hs : ex.score < sug.score
    · simp only [insertSug, hm, if_pos hs]
      constructor
      · rw [mapSet_fst_of_found m _ _ ex hm]
        exact hnd
      · intro p hp
        rcases mem_mapSet m _ _ p hp with h | h
        · rw [h]
        · exact hkeys p h
    · simp only [insertSug, hm, if_neg hs]
      exact ⟨hnd, hkeys⟩

theorem foldl_insertSug_mapInv :
    ∀ (l : List MySuggestion) (m : SugMap), MapInv m →
      MapInv (l.foldl insertSug m) := by
  intro l
  induction l with
  | nil => intro m h; exact h
  | cons x xs ih => intro m h; exact ih _ (insertSug_mapInv _ _ h)

theorem foldl_insertOmni_mapInv (recent vault : List MDFile) :
    ∀ (rs : List OmniResult) (m : SugMap), MapInv m →
      MapInv (rs.foldl
        (fun acc r => insertSug acc (mkOmniSug recent vault r)) m) := by
  intro rs
  induction rs with
  | nil => intro m h; exact h
  | cons r rs ih => intro m h; exact ih _ (insertSug_mapInv _ _ h)

theorem mapInv_localMap (e : Env) : MapInv (localMap e) :=
  foldl_insertSug_mapInv _ [] mapInv_nil

theorem mapInv_mergedMap (e : Env) : MapInv (mergedMap e) := by
  unfold mergedMap
  by_cases hq : (queryOf e).length > 0
  · rw [if_pos hq]
    rcases e.omni with _ | oc
    · exact mapInv_localMap e
    · rcases oc with oe | rs
      · exact mapInv_localMap e
      · exact foldl_insertOmni_mapInv e.recentFiles e.vault rs _
          (mapInv_localMap e)
  · rw [if_neg hq]
    exact mapInv_localMap e

theorem mapInv_values_pairwise (m : SugMap) (h : MapInv m) :
    (m.map (fun p => p.2)).Pairwise
      (fun a b => a.insertText ≠ b.insertText) := by
  obtain ⟨hnd, hkeys⟩ := h
  rw [List.pairwise_map]
  have h1 : m.Pairwise (fun p q => p.1 ≠ q.1) := List.pairwise_map.mp hnd
  refine List.Pairwise.imp_of_mem ?_ h1
  intro p q hp hq hr
  rw [hkeys p hp, hkeys q hq]
  exact hr

/-- C4 — confirmed.  The final suggestion list returned by
`getSuggestions` never contains two candidates with the same
`insertText` (insertion key): the merge map is keyed by `insertText`,
filtering and sorting preserve the distinctness. -/
theorem c4_insertion_keys_unique (e : Env) :
    (getSuggestions e).Pairwise (fun a b => a.insertText ≠ b.insertText) := by
  have h1 := mapInv_values_pairwise _ (mapInv_mergedMap e)
  have h2 : (filteredSuggestions e).Pairwise
      (fun a b => a.insertText ≠ b.insertText) :=
    List.Pairwise.sublist (List.filter_sublist _) h1
  have h3 : List.Perm (getSuggestions e) (filteredSuggestions e) :=
    List.mergeSort_perm _ jsLe
  exact (List.Perm.pairwise_iff (fun h => h.symm) h3).mpr h2

/-! ### Self-link suppression -/

/-- C5 — confirmed.  When a document is currently being edited, no
candidate of the final suggestion list carries its path: the filter
`sug.filePath !== currentFilePath` removes them, and the sort only
permutes. -/
theorem c5_no_self_link (e : Env) (p : String)
    (h : e.currentFile = some p) :
    ∀ s ∈ getSuggestions e, s.filePath ≠ p := by
  intro s hs
  have hs' : s ∈ filteredSuggestions e :=
    (List.Perm.mem_iff (List.mergeSort_perm _ jsLe)).mp hs
  have hk : keepSug e.currentFile s = true :=
    (List.mem_filter.mp hs').2
  have hne : e.currentFile ≠ some s.filePath := of_decide_eq_true hk
  intro hp
  exact hne (by rw [h, hp])

/-- C5 — witness: in `c5Env` the currently edited document is "A.md";
the surviving candidate (the title match for `c5FileB`) has a different
path. -/
theorem c5_no_self_link_witness : (noteSug c5FileB).filePath ≠ "A.md" :=
  c5_no_self_link c5Env "A.md" rfl (noteSug c5FileB)
    (List.mem_mergeSort.mpr (by decide))

/-! ### Final ordering -/

theorem jsLe_trans (a b c : MySuggestion) (h1 : jsLe a b = true)
    (h2 : jsLe b c = true) : jsLe a c = true := by
  cases ha : a.isRecent <;> cases hb : b.isRecent <;> cases hc : c.isRecent <;>
    simp_all [jsLe] <;> omega

theorem jsLe_total (a b : MySuggestion) : (jsLe a b || jsLe b a) = true := by
  cases ha : a.isRecent <;> cases hb : b.isRecent <;>
    simp_all [jsLe] <;> omega

theorem tieClass_jsLe (a b : MySuggestion) (r : Bool) (s : Int)
    (ha : tieClass r s a = true) (hb : tieClass r s b = true) :
    jsLe a b = true := by
  simp only [tieClass, Bool.and_eq_true, beq_iff_eq] at ha hb
  simp [jsLe, ha.1, hb.1, ha.2, hb.2]

/-- C6 — confirmed.  The final list is a permutation of the merged,
filtered candidates ordered by the stable two-key sort: recency flag
descending first, then score descending; candidates tied on both keys
keep their merge-insertion order (each tie class of the output equals
the same tie class of the pre-sort list). -/
theorem c6_two_key_stable_order (e : Env) :
    List.Perm (getSuggestions e) (filteredSuggestions e) ∧
    (getSuggestions e).Pairwise (fun a b =>
      (b.isRecent = true → a.isRecent = true) ∧
      (a.isRecent = b.isRecent → b.score ≤ a.score)) ∧
    (∀ (r : Bool) (s : Int),
      (getSuggestions e).filter (tieClass r s)
        = (filteredSuggestions e).filter (tieClass r s)) := by
  refine ⟨List.mergeSort_perm _ jsLe, ?_, ?_⟩
  · have hs := List.sorted_mergeSort jsLe_trans jsLe_total
      (filteredSuggestions e)
    refine hs.imp ?_
    intro a b hab
    constructor
    · intro hbr
      cases har : a.isRecent with
      | true => rfl
      | false => simp [jsLe, har, hbr] at hab
    · intro heq
      cases har : a.isRecent <;> simp_all [jsLe]
  · intro r s
    have hpw : ((filteredSuggestions e).filter (tieClass r s)).Pairwise
        (fun a b => jsLe a b = true) := by
      refine List.pairwise_of_forall_mem_list ?_
      intro a ha b hb
      exact tieClass_jsLe a b r s (List.of_mem_filter ha)
        (List.of_mem_filter hb)
    have hsub : List.Sublist ((filteredSuggestions e).filter (tieClass r s))
        (getSuggestions e) :=
      List.sublist_mergeSort jsLe_trans jsLe_total hpw
        (List.filter_sublist _)
    have hsub2 : List.Sublist
        (((filteredSuggestions e).filter (tieClass r s)).filter (tieClass r s))
        ((getSuggestions e).filter (tieClass r s)) :=
      hsub.filter (tieClass r s)
    have heq1 : ((filteredSuggestions e).filter (tieClass r s)).filter
          (tieClass r s)
        = (filteredSuggestions e).filter (tieClass r s) :=
      List.filter_eq_self.mpr (fun a ha => List.of_mem_filter ha)
    rw [heq1] at hsub2
    have hlen : ((getSuggestions e).filter (tieClass r s)).length
        = ((filteredSuggestions e).filter (tieClass r s)).length :=
      ((List.mergeSort_perm _ jsLe).filter (tieClass r s)).length_eq
    exact (hsub2.eq_of_length hlen.symm).symm

/-! ### Failure isolation of the external engine -/

/-- C7 — confirmed.  If the awaited `omnisearchApi.search` call rejects,
the `try/catch` swallows the failure (the catch block only logs): the
merged map is exactly the local map, so the pipeline returns exactly
what the Local Match Engine alone would have produced for the same
query, recent set and current document, and — the embedding being a
total function — no exception reaches the caller.  The same holds when
the API is absent. -/
theorem c7_rejection_yields_local_only (q : String) (cf : Option String)
    (rf vt : List MDFile) (om : Option (Except Unit (List OmniResult))) :
    getSuggestions ⟨q, cf, rf, vt, some (Except.error ())⟩
        = localOnlySuggestions ⟨q, cf, rf, vt, om⟩ ∧
      getSuggestions ⟨q, cf, rf, vt, none⟩
        = localOnlySuggestions ⟨q, cf, rf, vt, om⟩ := by
  constructor <;>
    · unfold getSuggestions localOnlySuggestions filteredSuggestions mergedMap
      split <;> rfl

/-! ### Empty-query behaviour of the local engine -/

theorem fuzzyMatches_empty_pattern (x : List Char) :
    fuzzyMatches [] x = true := by
  cases x <;> rfl

theorem fileMatches_empty_query (f : MDFile) (hf : f.cache.isSome = true) :
    fileMatches "" f = [noteSug f] := by
  obtain ⟨c, hc⟩ := Option.isSome_iff_exists.mp hf
  simp [fileMatches, hc, fuzzyMatches_empty_pattern]

theorem localEngine_empty_query :
    ∀ (fs : List MDFile), (∀ f ∈ fs, f.cache.isSome = true) →
      (fs.map (fileMatches "")).flatten = fs.map noteSug := by
  intro fs
  induction fs with
  | nil => intro _; rfl
  | cons f fs ih =>
    intro h
    simp only [List.map_cons, List.flatten_cons]
    rw [fileMatches_empty_query f (h f (List.mem_cons_self f fs)),
      ih (fun g hg => h g (List.mem_cons_of_mem f hg))]
    rfl

/-- C8 — counterexample to the claim as stated: a working set of one
document whose metadata cache is `null` yields zero title-match
candidates for the empty query, not one per document — the loop skips
cache-less files (`if (!cache) continue`). -/
theorem c8_cacheless_doc_skipped :
    recentMatches c8Env = [] ∧ c8Env.recentFiles.length = 1 := by
  decide

/-- C8 — corrected.  For the empty query over a working set whose
documents all have parsed metadata, the local engine yields exactly the
per-document title-match (note) candidates, one per document in recency
order — no alias or heading candidates — and the external search
adapter is not invoked at all. -/
theorem c8_empty_query_note_per_doc (e : Env)
    (hq : e.contextQuery = "")
    (hc : ∀ f ∈ e.recentFiles, f.cache.isSome = true) :
    recentMatches e = e.recentFiles.map noteSug ∧ omniCalls e = [] := by
  have hql : queryOf e = "" := by
    rw [show queryOf e = toLowerStr e.contextQuery from rfl, hq]
    rfl
  constructor
  · unfold recentMatches
    rw [hql]
    exact localEngine_empty_query e.recentFiles hc
  · simp [omniCalls, hql]

/-- C8 — witness for `c8_empty_query_note_per_doc` at `c8wEnv` (two
documents with metadata, empty query). -/
theorem c8_empty_query_note_per_doc_witness :
    recentMatches c8wEnv = c8wEnv.recentFiles.map noteSug ∧
      omniCalls c8wEnv = [] :=
  c8_empty_query_note_per_doc c8wEnv rfl (by decide)

/-! ### Debounce semantics -/

theorem debRun_cons {A E R : Type} (func : A → Except E R)
    (s : DebState A E R) (ev : DebEvent A) (evs : List (DebEvent A)) :
    debRun func s (ev :: evs) = debRun func (debStep func s ev) evs := rfl

theorem debRun_settled_avoid {A E R : Type} (func : A → Except E R) :
    ∀ (evs : List (DebEvent A)) (s : DebState A E R) (n : Nat),
      s.cur ≠ some n → (∀ r, (n, r) ∉ s.settled) →
      (∀ p x, DebEvent.call p x ∈ evs → p ≠ n) →
      ∀ r, (n, r) ∉ (debRun func s evs).settled := by
  intro evs
  induction evs with
  | nil => intro s n h1 h2 _ r; exact h2 r
  | cons ev evs ih =>
    intro s n h1 h2 h3 r
    rw [debRun_cons]
    cases ev with
    | call pid args =>
      refine ih (debStep func s (DebEvent.call pid args)) n ?_ ?_
        (fun p x hp => h3 p x (List.mem_cons_of_mem _ hp)) r
      · have hpid : pid ≠ n := h3 pid args (List.mem_cons_self _ _)
        simp [debStep, hpid]
      · intro r'
        simp only [debStep]
        exact h2 r'
    | fire =>
      cases ht : s.timeout with
      | none =>
        have hstep : debStep func s DebEvent.fire = s := by
          simp [debStep, ht]
        rw [hstep]
        exact ih s n h1 h2
          (fun p x hp => h3 p x (List.mem_cons_of_mem _ hp)) r
      | some args =>
        refine ih (debStep func s DebEvent.fire) n ?_ ?_
          (fun p x hp => h3 p x (List.mem_cons_of_mem _ hp)) r
        · simp [debStep, ht]
        · intro r'
          simp only [debStep, ht]
          intro hmem
          rcases List.mem_append.mp hmem with h | h
          · exact h2 r' h
          · rcases hc : s.cur with _ | pid
            · rw [hc] at h
              simp at h
            · rw [hc] at h
              simp only [List.mem_singleton, Prod.mk.injEq] at h
              exact h1 (by rw [hc, h.1])

theorem debRun_fires_only {A E R : Type} (func : A → Except E R) :
    ∀ (evs : List (DebEvent A)) (s : DebState A E R),
      (∀ ev ∈ evs, ev = DebEvent.fire) →
      (debRun func s evs).invocations = s.invocations ∨
      ∃ args, s.timeout = some args ∧
        (debRun func s evs).invocations = s.invocations ++ [args] := by
  intro evs
  induction evs with
  | nil => intro s _; exact Or.inl rfl
  | cons ev evs ih =>
    intro s h
    have hev : ev = DebEvent.fire := h ev (List.mem_cons_self _ _)
    subst hev
    rw [debRun_cons]
    cases ht : s.timeout with
    | none =>
      have hstep : debStep func s DebEvent.fire = s := by
        simp [debStep, ht]
      rw [hstep]
      rcases ih s (fun e he => h e (List.mem_cons_of_mem _ he)) with
        hi | ⟨a, hta, _⟩
      · exact Or.inl hi
      · rw [ht] at hta
        exact Option.noConfusion hta
    | some args =>
      rcases ih (debStep func s DebEvent.fire)
          (fun e he => h e (List.mem_cons_of_mem _ he)) with hi | ⟨a, hta, _⟩
      · refine Or.inr ⟨args, rfl, ?_⟩
        rw [hi]
        simp [debStep, ht]
      · exfalso
        simp [debStep, ht] at hta

/-- C10 — confirmed.  For the `debounced(func, delay)` wrapper, when a
second call (promise 2, arguments `a2`) arrives before the first call's
(promise 1, arguments `a1`) timer fires: (i) promise 1 never settles,
whatever later events occur (later calls create fresh promises, so
their pids differ from 1); (ii) if the armed timer then fires, `func`
is invoked exactly once, with the second call's arguments only, and
promise 2 settles with that invocation's outcome; (iii) if only timer
expiries follow the pair, `func` runs at most once and only on `a2`. -/
theorem c10_debounced_second_call_wins {A E R : Type}
    (func : A → Except E R) (a1 a2 : A) :
    (∀ rest : List (DebEvent A),
      (∀ p x, DebEvent.call p x ∈ rest → p ≠ 1) →
      ∀ r : Except E R,
        (1, r) ∉ (debRun func debInit
          (DebEvent.call 1 a1 :: DebEvent.call 2 a2 :: rest)).settled) ∧
    (debRun func debInit
      [DebEvent.call 1 a1, DebEvent.call 2 a2,
        DebEvent.fire]).invocations = [a2] ∧
    (debRun func debInit
      [DebEvent.call 1 a1, DebEvent.call 2 a2,
        DebEvent.fire]).settled = [(2, func a2)] ∧
    (∀ rest : List (DebEvent A),
      (∀ ev ∈ rest, ev = DebEvent.fire) →
      (debRun func debInit
          (DebEvent.call 1 a1 :: DebEvent.call 2 a2 :: rest)).invocations
          = [] ∨
        (debRun func debInit
          (DebEvent.call 1 a1 :: DebEvent.call 2 a2 :: rest)).invocations
          = [a2]) := by
  refine ⟨?_, rfl, rfl, ?_⟩
  · intro rest hrest r
    rw [debRun_cons, debRun_cons]
    exact debRun_settled_avoid func rest _ 1 (by simp [debStep, debInit])
      (by simp [debStep, debInit]) hrest r
  · intro rest hrest
    rw [debRun_cons, debRun_cons]
    rcases debRun_fires_only func rest
        (debStep func (debStep func debInit (DebEvent.call 1 a1))
          (DebEvent.call 2 a2)) hrest with hi | ⟨a, hta, hinv⟩
    · exact Or.inl hi
    · have ha : a = a2 := by
        simp [debStep, debInit] at hta
        exact hta.symm
      subst ha
      exact Or.inr (by simpa using hinv)

/-- C10 — witness: concrete run with `a1 = 3`, `a2 = 7` and the
identity-style function `c10Func`; promise 2 settles with `ok 7`, `func`
runs once on 7, and promise 1 is absent from the settled list. -/
theorem c10_debounced_second_call_wins_witness :
    (debRun c10Func debInit
      (DebEvent.call 1 3 :: DebEvent.call 2 7 ::
        [DebEvent.fire])).invocations = [7] ∧
    (debRun c10Func debInit
      (DebEvent.call 1 3 :: DebEvent.call 2 7 ::
        [DebEvent.fire])).settled = [(2, Except.ok 7)] ∧
    (1, Except.ok 3) ∉ (debRun c10Func debInit
      (DebEvent.call 1 3 :: DebEvent.call 2 7 ::
        [DebEvent.fire])).settled := by
  obtain ⟨h1, h2, h3, _⟩ := c10_debounced_second_call_wins c10Func 3 7
  refine ⟨h2, h3, ?_⟩
  exact h1 [DebEvent.fire] (by intro p x hp; simp at hp) (Except.ok 3)
